import Mathlib

/-!
Shallow embedding of the poker game core of this repository
(`app/playapi.py`, with the data model of `app/models.py` and the state
helpers of `app/init.py`).

Modelling conventions:
* Every action endpoint first tries to delegate to a remote dealer service
  and runs its local implementation only when that network call fails.  The
  network call is external I/O; the embedding models the local (fallback)
  implementations, which are the state-transition core the specification
  describes.
* Python floats are modelled as exact rationals (`Rat`).
* In-place mutation of the process-wide `Game` object is modelled as
  explicit state passing: each action takes a `Game` (the state returned by
  `get_game()`) and returns the resulting `Game`.  An action that raises
  `HTTPException` returns an `err` outcome carrying the state at the moment
  the exception was raised, since mutations made before the raise persist
  on the shared object in the source.
* `random.shuffle` produces an unspecified permutation; the embedding keeps
  freshly created decks in construction order.  No verified property
  depends on the order of a freshly shuffled deck beyond its length.
* Dynamic attributes (`hasattr`/`getattr` with defaults) are modelled as
  always-present fields holding their default values, matching the fields
  `get_game()` and `initialize_game()` install on every game object.
-/

namespace PokerApi

/-- Model of `Card` from `app/models.py`: rank, suit and display name. -/
structure Card where
  rank : String
  suit : String
  name : String
deriving DecidableEq

/-- Model of `Player` from `app/models.py` together with the attributes the API code
installs on it (`is_all_in`, `has_acted`).  The `host_url` attribute is
stored by `join_game` but never read by the game logic, so it is omitted. -/
structure Player where
  name : String
  balance : Rat
  cards : List Card
  current_bet : Rat
  is_active : Bool
  is_all_in : Bool
  has_acted : Bool
deriving DecidableEq

/-- Model of `Game` from `app/models.py` together with the attributes installed by
`get_game()`/`initialize_game()` (`current_bet`, `community_cards`,
`side_pots`).  The `current_stage` string is never consulted by the
verified operations and is omitted. -/
structure Game where
  players : List Player
  is_active : Bool
  current_turn_order : List String
  current_turn_index : Nat
  pot : Rat
  current_bet : Rat
  deck : List Card
  community_cards : List Card
  side_pots : List Rat
deriving DecidableEq

/-- Placeholder player used as the default value of positional lookups. -/
def dummyPlayer : Player :=
  { name := "", balance := 0, cards := [], current_bet := 0,
    is_active := false, is_all_in := false, has_acted := false }

/-- Model of `find_player_by_name` from `app/init.py`: first player in list order
whose name matches. -/
def findPlayer (ps : List Player) (nm : String) : Option Player :=
  match ps with
  | [] => none
  | p :: rest => if p.name = nm then some p else findPlayer rest nm

/-- In-place mutation of the player object returned by
`find_player_by_name`: the first entry of the list with the given name is
replaced by its image under `f`. -/
def updateFirst (ps : List Player) (nm : String) (f : Player → Player) : List Player :=
  match ps with
  | [] => []
  | p :: rest => if p.name = nm then f p :: rest else p :: updateFirst rest nm f

/-- Eligibility for the turn rotation: `p.is_active and not getattr(p, "is_all_in", False)`.  Used for
the turn rotation. -/
def activeNotAllIn (p : Player) : Bool :=
  p.is_active && !p.is_all_in

/-- Model of `[p for p in game.players if p.is_active]`. -/
def activePlayers (g : Game) : List Player :=
  g.players.filter (fun p => p.is_active)

/-- Model of `CARD_VALUES.get(card.rank, 0)` from `app/playapi.py`. -/
def CARD_VALUES (r : String) : Nat :=
  match r with
  | "2" => 2
  | "3" => 3
  | "4" => 4
  | "5" => 5
  | "6" => 6
  | "7" => 7
  | "8" => 8
  | "9" => 9
  | "10" => 10
  | "J" => 11
  | "Q" => 12
  | "K" => 13
  | "A" => 14
  | _ => 0

/-- Model of `max([CARD_VALUES.get(card.rank, 0) for card in player.cards])`.  The
source applies Python `max` to a non-empty list; over natural numbers the
fold with neutral element `0` agrees with it on every non-empty list. -/
def handScore (cards : List Card) : Nat :=
  (cards.map (fun c => CARD_VALUES c.rank)).foldr max 0

/-- The `player_scores` accumulation loop of `determine_winner`: players
with fewer than 2 cards are skipped (`continue`), the rest contribute
`(name, highest card value)`. -/
def playerScores (ps : List Player) : List (String × Nat) :=
  match ps with
  | [] => []
  | p :: rest =>
    if p.cards.length < 2 then playerScores rest
    else (p.name, handScore p.cards) :: playerScores rest

/-- Model of `max([p["score"] for p in player_scores])` (again Python `max` of a
non-empty list, realised as a fold over naturals). -/
def maxScore (scores : List (String × Nat)) : Nat :=
  (scores.map Prod.snd).foldr max 0

/-- Result shape of `determine_winner`: Python returns `None`, a single
dict with `hand_type = "default_win"`, a single dict with a score, or a
list of score dicts (split pot). -/
inductive WinResult where
  | noWinner
  | defaultWin (nm : String)
  | single (nm : String) (score : Nat)
  | split (ws : List (String × Nat))
deriving DecidableEq

/-- The names reported as winners by a `determine_winner` result. -/
def winnerNames : WinResult → List String
  | .noWinner => []
  | .defaultWin nm => [nm]
  | .single nm _ => [nm]
  | .split ws => ws.map Prod.fst

/-- The scores of the active players of `g` (the entries of
`player_scores`). -/
def scoresOf (g : Game) : List (String × Nat) :=
  playerScores (activePlayers g)

/-- The entries of `player_scores` holding the maximum score (the `winners`
list of `determine_winner`). -/
def winnersOf (g : Game) : List (String × Nat) :=
  (scoresOf g).filter (fun s => s.2 = maxScore (scoresOf g))

/-- Model of `determine_winner` from `app/playapi.py`. -/
def determine_winner (g : Game) : WinResult :=
  match activePlayers g with
  | [] => .noWinner
  | [p] => .defaultWin p.name
  | _ :: _ :: _ =>
    if scoresOf g = [] then .noWinner
    else
      match winnersOf g with
      | [w] => .single w.1 w.2
      | ws => .split ws

/-- The body of the `while iteration_count < max_iterations` loop of
`advance_turn`, with the remaining permitted iterations as fuel.  Each
iteration advances the index by one modulo the order length, then breaks
when the index has wrapped to `origIdx`, or when it points at a player who
is active and not all-in.  Running out of fuel is the loop condition
becoming false. -/
def advanceLoop (g : Game) (origIdx : Nat) (idx : Nat) : Nat → Nat
  | 0 => idx
  | fuel + 1 =>
    let n := g.current_turn_order.length
    let idx' := (idx + 1) % n
    if idx' = origIdx then idx'
    else
      match findPlayer g.players (g.current_turn_order.getD idx' "") with
      | some p => if activeNotAllIn p then idx' else advanceLoop g origIdx idx' fuel
      | none => advanceLoop g origIdx idx' fuel

/-- Model of `advance_turn` from `app/playapi.py`.  The second emptiness test of the
source (rebuilding the order when `len(game.current_turn_order) == 0`) is
unreachable because the first branch already returns on an empty order, so
it has no counterpart here. -/
def advance_turn (g : Game) : Game :=
  if g.current_turn_order = [] then
    { g with current_turn_order := (activePlayers g).map (fun p => p.name),
             current_turn_index := 0 }
  else if g.players.filter activeNotAllIn = [] then g
  else
    { g with current_turn_index :=
        (advanceLoop g g.current_turn_index g.current_turn_index
          g.current_turn_order.length) }

/-- Outcome of `place_bet`: `ok` with the resulting state, or `err` with an
HTTP status code and the state at the moment the exception was raised. -/
inductive BetOutcome where
  | ok (g : Game)
  | err (status : Nat) (g : Game)
deriving DecidableEq

/-- The game state carried by a `place_bet` outcome. -/
def outGame : BetOutcome → Game
  | .ok g => g
  | .err _ g => g

/-- Whether a `place_bet` outcome is a success. -/
def isOk : BetOutcome → Bool
  | .ok _ => true
  | .err _ _ => false

/-- Model of `if not game.is_active: game.is_active = True`. -/
def gameActivate (g : Game) : Game :=
  { g with is_active := true }

/-- Model of `if not ... game.current_turn_order:` — rebuild the order from the active
players and reset the index — shared by `place_bet`, `fold` and
`is_your_turn`. -/
def turnOrderInit (g : Game) : Game :=
  if g.current_turn_order = [] then
    { g with current_turn_order := (activePlayers g).map (fun p => p.name),
             current_turn_index := 0 }
  else g

/-- The state of the game after the validation prefix of `place_bet`:
game activated, named player activated, turn order initialised if empty.
These mutations happen before the bet amount is validated. -/
def pbPre (g : Game) (nm : String) : Game :=
  turnOrderInit
    { (gameActivate g) with
        players := updateFirst (gameActivate g).players nm
          (fun p => { p with is_active := true }) }

/-- The mutation core of `place_bet` on a known player and positive amount:
top-up-then-deduct the balance, overwrite the player's bet, grow the pot,
raise the table bet and clear `has_acted` of the other eligible players
when the amount exceeds `cb` (the table bet read before the mutation), and
mark the acting player as having acted. -/
def pbApply (g : Game) (nm : String) (a : Rat) (cb : Rat) : Game :=
  let g1 : Game :=
    { g with
        players := updateFirst g.players nm (fun p =>
          { p with
              balance := (if p.balance < a then max 1000 (a * 2) else p.balance) - a,
              current_bet := a }),
        pot := g.pot + a }
  let g2 : Game :=
    if cb < a then
      { g1 with
          current_bet := a,
          players := g1.players.map (fun q =>
            if q.name ≠ nm ∧ q.is_active = true ∧ q.is_all_in = false then
              { q with has_acted := false }
            else q) }
    else g1
  { g2 with players := updateFirst g2.players nm (fun p => { p with has_acted := true }) }

/-- Model of `place_bet` from `app/playapi.py` (local fallback path). -/
def place_bet (g : Game) (nm : String) (a : Rat) : BetOutcome :=
  match findPlayer (gameActivate g).players nm with
  | none => .err 404 (gameActivate g)
  | some _ =>
    if a ≤ 0 then .err 400 (pbPre g nm)
    else .ok (advance_turn (pbApply (pbPre g nm) nm a (pbPre g nm).current_bet))

/-- Outcome of `fold`: a single-survivor win, an ordinary fold, or an
error carrying the state at the raise. -/
inductive FoldOutcome where
  | winner (nm : String) (g : Game)
  | folded (g : Game)
  | err (status : Nat) (g : Game)
deriving DecidableEq

/-- The game state carried by a `fold` outcome. -/
def foldOutGame : FoldOutcome → Game
  | .winner _ g => g
  | .folded g => g
  | .err _ g => g

/-- The winner reported by a `fold` outcome, if any. -/
def foldWinner : FoldOutcome → Option String
  | .winner nm _ => some nm
  | _ => none

/-- Whether a `fold` outcome is an error. -/
def foldIsErr : FoldOutcome → Bool
  | .err _ _ => true
  | _ => false

/-- The marking step of `fold`: activate the game, then on the named
player set `is_active = True`, `has_acted = True`, `is_active = False` —
the net effect on the player is `has_acted := true, is_active := false`. -/
def foldMark (g : Game) (nm : String) : Game :=
  { g with is_active := true,
           players := updateFirst g.players nm
             (fun p => { p with has_acted := true, is_active := false }) }

/-- Model of `list.index` on the turn order (Python `index` of the first
occurrence; `fold` only calls it when the name is present). -/
def idxOfName (l : List String) (s : String) : Nat :=
  match l with
  | [] => 0
  | x :: xs => if x = s then 0 else idxOfName xs s + 1

/-- Model of `list.remove` on the turn order (removes the first occurrence). -/
def eraseName (l : List String) (s : String) : List String :=
  match l with
  | [] => []
  | x :: xs => if x = s then xs else x :: eraseName xs s

/-- The turn-order maintenance step of `fold`: rebuild an empty order from
the active players, otherwise remove the folding player and renormalise
the index modulo the shorter order when the removed position was at or
before the current index and the order stayed non-empty. -/
def foldOrderUpdate (g : Game) (nm : String) : Game :=
  if g.current_turn_order = [] then
    { g with current_turn_order := (activePlayers g).map (fun p => p.name),
             current_turn_index := 0 }
  else if nm ∈ g.current_turn_order then
    let idx := idxOfName g.current_turn_order nm
    let order' := eraseName g.current_turn_order nm
    if idx ≤ g.current_turn_index ∧ order' ≠ [] then
      { g with current_turn_order := order',
               current_turn_index := g.current_turn_index % order'.length }
    else { g with current_turn_order := order' }
  else g

/-- Model of `fold` from `app/playapi.py` (local fallback path).  When exactly one
active player remains, `winner.balance += game.pot` mutates the unique
active player object, modelled as the map over the player list that adds
the pot to every active player (there is exactly one). -/
def fold (g : Game) (nm : String) : FoldOutcome :=
  match findPlayer (gameActivate g).players nm with
  | none => .err 404 (gameActivate g)
  | some _ =>
    let g3 := foldOrderUpdate (foldMark g nm) nm
    match g3.players.filter (fun p => p.is_active) with
    | [w] =>
      .winner w.name
        { g3 with pot := 0,
                  players := g3.players.map (fun q =>
                    if q.is_active then { q with balance := q.balance + g3.pot } else q) }
    | [] => .folded g3
    | _ :: _ :: _ => .folded (advance_turn g3)

/-- The thirteen card ranks, in construction order. -/
def rank_list : List String :=
  ["2", "3", "4", "5", "6", "7", "8", "9", "10", "J", "Q", "K", "A"]

/-- The suit spellings used by `initialize_deck` in `app/init.py`. -/
def suit_list_init : List String :=
  ["Hearts", "Diamonds", "Clubs", "Spades"]

/-- The suit spellings used by the inline deck creation of the endpoints
in `app/playapi.py`. -/
def suit_list_local : List String :=
  ["hearts", "diamonds", "clubs", "spades"]

/-- Model of `suit.capitalize()` restricted to the four suit spellings in use. -/
def capSuit (s : String) : String :=
  match s with
  | "hearts" => "Hearts"
  | "diamonds" => "Diamonds"
  | "clubs" => "Clubs"
  | "spades" => "Spades"
  | _ => s

/-- The 52-card deck built by `initialize_deck` in `app/init.py`
(shuffling, a permutation, is not modelled). -/
def init_deck : List Card :=
  suit_list_init.flatMap (fun s =>
    rank_list.map (fun r => { rank := r, suit := s, name := r ++ " of " ++ s }))

/-- The 52-card deck built inline by `join_game` (and the other endpoints)
in `app/playapi.py`: lowercase suits, capitalised in the display name
(shuffling, a permutation, is not modelled). -/
def local_deck : List Card :=
  suit_list_local.flatMap (fun s =>
    rank_list.map (fun r => { rank := r, suit := s, name := r ++ " of " ++ capSuit s }))

/-- The deck `join_game` deals from after its lazy recreation step: the
inline 52-card deck when the game's deck is empty, the existing deck
otherwise (in particular a 1-card deck is kept, not recreated). -/
def lazyDeck (g : Game) : List Card :=
  if g.deck = [] then local_deck else g.deck

/-- The game produced by `initialize_game(0)` followed by
`initialize_deck()` in `app/init.py`: active, empty, with a fresh deck
(the `side_pots` attribute is absent and reads as the default `[]`). -/
def freshActiveGame : Game :=
  { players := [], is_active := true, current_turn_order := [],
    current_turn_index := 0, pot := 0, current_bet := 0,
    deck := init_deck, community_cards := [], side_pots := [] }

/-- Outcome of `join_game`. -/
inductive JoinOutcome where
  | ok (g : Game)
  | err (status : Nat) (g : Game)
deriving DecidableEq

/-- The game state carried by a `join_game` outcome. -/
def joinOutGame : JoinOutcome → Game
  | .ok g => g
  | .err _ g => g

/-- Whether a `join_game` outcome is a success. -/
def isOkJoin : JoinOutcome → Bool
  | .ok _ => true
  | .err _ _ => false

/-- Model of `join_game` from `app/playapi.py`.  When the game is inactive it is
replaced by a fresh one via `initialize_game(0)` (whose deck is already
full, so the subsequent empty-deck rebuild of that branch never fires).
The new player receives two cards only when the deck, after the lazy
recreation that happens only on an empty deck, still holds at least two
cards. -/
def join_game (g : Game) (nm : String) : JoinOutcome :=
  let g0 := if g.is_active then g else freshActiveGame
  match findPlayer g0.players nm with
  | some _ => .err 400 g0
  | none =>
    let g1 := if g0.deck = [] then { g0 with deck := local_deck } else g0
    let dealt := if 2 ≤ g1.deck.length then g1.deck.take 2 else []
    let deck' := if 2 ≤ g1.deck.length then g1.deck.drop 2 else g1.deck
    let newP : Player :=
      { name := nm, balance := 1000, cards := dealt, current_bet := 0,
        is_active := true, is_all_in := false, has_acted := false }
    .ok { g1 with deck := deck',
                  players := g1.players ++ [newP],
                  current_turn_order := g1.current_turn_order ++ [nm] }

/-- Model of `end_game` from `app/playapi.py`: deactivate the game, reset the pot
and side pots, clear every player's cards, bet and flags.  Balances, the
player list, the deck and the turn state are untouched. -/
def end_game (g : Game) : Game :=
  { g with is_active := false, pot := 0, side_pots := [],
           players := g.players.map (fun p =>
             { p with cards := [], current_bet := 0,
                      is_all_in := false, has_acted := false }) }

/-! ### Concrete states used by witnesses and counterexamples -/

/-- An ace (value 14). -/
def cardA : Card := { rank := "A", suit := "hearts", name := "A of Hearts" }

/-- A king (value 13). -/
def cardK : Card := { rank := "K", suit := "spades", name := "K of Spades" }

/-- A queen (value 12). -/
def cardQ : Card := { rank := "Q", suit := "clubs", name := "Q of Clubs" }

/-- A deuce (value 2). -/
def card2 : Card := { rank := "2", suit := "clubs", name := "2 of Clubs" }

/-- A sample active player holding ace-high. -/
def wAlice : Player :=
  { name := "Alice", balance := 100, cards := [cardA, card2], current_bet := 0,
    is_active := true, is_all_in := false, has_acted := true }

/-- A sample active player holding king-high. -/
def wBob : Player :=
  { name := "Bob", balance := 500, cards := [cardK, card2], current_bet := 7,
    is_active := true, is_all_in := false, has_acted := true }

/-- A sample two-player mid-hand game. -/
def wGame : Game :=
  { players := [wAlice, wBob], is_active := true,
    current_turn_order := ["Alice", "Bob"], current_turn_index := 0,
    pot := 20, current_bet := 10, deck := [], community_cards := [],
    side_pots := [] }

/-- A game whose two players are both all-in, with the turn index on the
second of them. -/
def wGameAllIn : Game :=
  { wGame with
      players := [{ wAlice with is_all_in := true }, { wBob with is_all_in := true }],
      current_turn_index := 1 }

/-- Two active players, neither holding two cards. -/
def wGame10 : Game :=
  { wGame with players := [{ wAlice with cards := [] }, { wBob with cards := [cardK] }] }

/-- An inactive game holding one folded player: input of the C3
counterexample. -/
def gameC3 : Game :=
  { players := [{ wAlice with is_active := false, cards := [] }],
    is_active := false, current_turn_order := [], current_turn_index := 0,
    pot := 0, current_bet := 0, deck := [], community_cards := [],
    side_pots := [] }

/-- An active empty game whose deck holds exactly one card: input of the
C2 counterexample. -/
def gameC2 : Game :=
  { players := [], is_active := true, current_turn_order := [],
    current_turn_index := 0, pot := 0, current_bet := 0, deck := [cardA],
    community_cards := [], side_pots := [] }

/-! ### Lookup and update lemmas -/

theorem findPlayer_name {nm : String} :
    ∀ {ps : List Player} {p : Player}, findPlayer ps nm = some p → p.name = nm := by
  intro ps
  induction ps with
  | nil => intro p h; simp [findPlayer] at h
  | cons q rest ih =>
    intro p h
    simp only [findPlayer] at h
    by_cases hq : q.name = nm
    · rw [if_pos hq] at h
      injection h with h
      rw [← h]
      exact hq
    · rw [if_neg hq] at h
      exact ih h

theorem findPlayer_updateFirst (f : Player → Player) {nm : String}
    (hf : ∀ q, (f q).name = q.name) :
    ∀ ps : List Player, findPlayer (updateFirst ps nm f) nm = (findPlayer ps nm).map f := by
  intro ps
  induction ps with
  | nil => rfl
  | cons q rest ih =>
    simp only [updateFirst, findPlayer]
    by_cases hq : q.name = nm
    · rw [if_pos hq]
      simp only [findPlayer, hf q]
      rw [if_pos hq, if_pos hq]
      rfl
    · rw [if_neg hq]
      simp only [findPlayer]
      rw [if_neg hq, if_neg hq]
      exact ih

theorem findPlayer_map (f : Player → Player) {nm : String}
    (hf : ∀ q, (f q).name = q.name) :
    ∀ ps : List Player, findPlayer (ps.map f) nm = (findPlayer ps nm).map f := by
  intro ps
  induction ps with
  | nil => rfl
  | cons q rest ih =>
    simp only [List.map_cons, findPlayer, hf q]
    by_cases hq : q.name = nm
    · rw [if_pos hq, if_pos hq]
      rfl
    · rw [if_neg hq, if_neg hq]
      exact ih

theorem updateFirst_length {nm : String} {f : Player → Player} :
    ∀ ps : List Player, (updateFirst ps nm f).length = ps.length := by
  intro ps
  induction ps with
  | nil => rfl
  | cons q rest ih =>
    simp only [updateFirst]
    by_cases hq : q.name = nm
    · rw [if_pos hq]
      simp
    · rw [if_neg hq]
      simp [ih]

theorem updateFirst_getD (f : Player → Player) (nm : String) :
    ∀ (ps : List Player) (i : Nat),
      (updateFirst ps nm f).getD i dummyPlayer = ps.getD i dummyPlayer ∨
      (updateFirst ps nm f).getD i dummyPlayer = f (ps.getD i dummyPlayer) := by
  intro ps
  induction ps with
  | nil => intro i; left; rfl
  | cons q rest ih =>
    intro i
    simp only [updateFirst]
    by_cases hq : q.name = nm
    · rw [if_pos hq]
      cases i with
      | zero => right; rfl
      | succ j => left; rfl
    · rw [if_neg hq]
      cases i with
      | zero => left; rfl
      | succ j => exact ih j

theorem updateFirst_getD_other {nm : String} {f : Player → Player} :
    ∀ (ps : List Player) (i : Nat), (ps.getD i dummyPlayer).name ≠ nm →
      (updateFirst ps nm f).getD i dummyPlayer = ps.getD i dummyPlayer := by
  intro ps
  induction ps with
  | nil => intro i _; rfl
  | cons q rest ih =>
    intro i hi
    simp only [updateFirst]
    by_cases hq : q.name = nm
    · rw [if_pos hq]
      cases i with
      | zero => exact absurd hq hi
      | succ j => rfl
    · rw [if_neg hq]
      cases i with
      | zero => rfl
      | succ j => exact ih j hi

theorem getD_map_of_lt {f : Player → Player} :
    ∀ (ps : List Player) (i : Nat), i < ps.length →
      (ps.map f).getD i dummyPlayer = f (ps.getD i dummyPlayer) := by
  intro ps
  induction ps with
  | nil => intro i hi; exact absurd hi (by simp)
  | cons q rest ih =>
    intro i hi
    cases i with
    | zero => rfl
    | succ j => exact ih j (Nat.lt_of_succ_lt_succ hi)

theorem getD_mem_str :
    ∀ (l : List String) (i : Nat), i < l.length → l.getD i "" ∈ l := by
  intro l
  induction l with
  | nil => intro i hi; exact absurd hi (by simp)
  | cons x xs ih =>
    intro i hi
    cases i with
    | zero => exact List.mem_cons_self x xs
    | succ j => exact List.mem_cons_of_mem x (ih j (Nat.lt_of_succ_lt_succ hi))

theorem map_name_updateFirst (f : Player → Player) {nm : String}
    (hf : ∀ q, (f q).name = q.name) :
    ∀ ps : List Player, (updateFirst ps nm f).map Player.name = ps.map Player.name := by
  intro ps
  induction ps with
  | nil => rfl
  | cons q rest ih =>
    simp only [updateFirst]
    by_cases hq : q.name = nm
    · rw [if_pos hq]
      simp [hf q]
    · rw [if_neg hq]
      simp [ih]

theorem findPlayer_of_nodup_mem :
    ∀ {ps : List Player}, (ps.map Player.name).Nodup →
      ∀ {w : Player}, w ∈ ps → findPlayer ps w.name = some w := by
  intro ps
  induction ps with
  | nil => intro _ w hw; exact absurd hw (by simp)
  | cons q rest ih =>
    intro hnd w hw
    rw [List.map_cons, List.nodup_cons] at hnd
    rcases List.mem_cons.mp hw with h | h
    · subst h
      simp [findPlayer]
    · simp only [findPlayer]
      by_cases hq : q.name = w.name
      · exact absurd (hq ▸ List.mem_map_of_mem Player.name h) hnd.1
      · rw [if_neg hq]
        exact ih hnd.2 h

theorem findPlayer_append {nm : String} :
    ∀ {ps qs : List Player}, findPlayer ps nm = none →
      findPlayer (ps ++ qs) nm = findPlayer qs nm := by
  intro ps
  induction ps with
  | nil => intro qs _; rfl
  | cons q rest ih =>
    intro qs h
    simp only [findPlayer] at h ⊢
    by_cases hq : q.name = nm
    · rw [if_pos hq] at h
      cases h
    · rw [if_neg hq] at h ⊢
      exact ih h

/-! ### Frame lemmas for the betting engine -/

theorem advance_turn_players (g : Game) : (advance_turn g).players = g.players := by
  unfold advance_turn
  split
  · rfl
  · split <;> rfl

theorem advance_turn_pot (g : Game) : (advance_turn g).pot = g.pot := by
  unfold advance_turn
  split
  · rfl
  · split <;> rfl

theorem advance_turn_current_bet (g : Game) :
    (advance_turn g).current_bet = g.current_bet := by
  unfold advance_turn
  split
  · rfl
  · split <;> rfl

theorem turnOrderInit_players (g : Game) : (turnOrderInit g).players = g.players := by
  unfold turnOrderInit
  split <;> rfl

theorem turnOrderInit_pot (g : Game) : (turnOrderInit g).pot = g.pot := by
  unfold turnOrderInit
  split <;> rfl

theorem turnOrderInit_current_bet (g : Game) :
    (turnOrderInit g).current_bet = g.current_bet := by
  unfold turnOrderInit
  split <;> rfl

theorem turnOrderInit_deck (g : Game) : (turnOrderInit g).deck = g.deck := by
  unfold turnOrderInit
  split <;> rfl

theorem pbPre_players (g : Game) (nm : String) :
    (pbPre g nm).players =
      updateFirst g.players nm (fun p => { p with is_active := true }) := by
  unfold pbPre gameActivate
  rw [turnOrderInit_players]

theorem pbPre_pot (g : Game) (nm : String) : (pbPre g nm).pot = g.pot := by
  unfold pbPre gameActivate
  rw [turnOrderInit_pot]

theorem pbPre_current_bet (g : Game) (nm : String) :
    (pbPre g nm).current_bet = g.current_bet := by
  unfold pbPre gameActivate
  rw [turnOrderInit_current_bet]

theorem pbPre_deck (g : Game) (nm : String) : (pbPre g nm).deck = g.deck := by
  unfold pbPre gameActivate
  rw [turnOrderInit_deck]

theorem pbApply_pot (G : Game) (nm : String) (a cb : Rat) :
    (pbApply G nm a cb).pot = G.pot + a := by
  unfold pbApply
  split <;> rfl

theorem pbApply_current_bet (G : Game) (nm : String) (a cb : Rat) :
    (pbApply G nm a cb).current_bet = if cb < a then a else G.current_bet := by
  unfold pbApply
  split <;> rfl

theorem place_bet_ok_eq {g : Game} {nm : String} {a : Rat} {p : Player}
    (hf : findPlayer g.players nm = some p) (ha : 0 < a) :
    place_bet g nm a =
      .ok (advance_turn (pbApply (pbPre g nm) nm a (pbPre g nm).current_bet)) := by
  unfold place_bet
  have hg : findPlayer (gameActivate g).players nm = some p := hf
  rw [hg]
  simp only [not_le.mpr ha, if_false]

theorem place_bet_err_eq {g : Game} {nm : String} {a : Rat} {p : Player}
    (hf : findPlayer g.players nm = some p) (ha : a ≤ 0) :
    place_bet g nm a = .err 400 (pbPre g nm) := by
  unfold place_bet
  have hg : findPlayer (gameActivate g).players nm = some p := hf
  rw [hg]
  simp only [ha, if_true]

theorem place_bet_notfound_eq {g : Game} {nm : String} {a : Rat}
    (hf : findPlayer g.players nm = none) :
    place_bet g nm a = .err 404 (gameActivate g) := by
  unfold place_bet
  have hg : findPlayer (gameActivate g).players nm = none := hf
  rw [hg]

theorem pbPre_findPlayer {g : Game} {nm : String} {p : Player}
    (hf : findPlayer g.players nm = some p) :
    findPlayer (pbPre g nm).players nm = some { p with is_active := true } := by
  rw [pbPre_players,
      findPlayer_updateFirst (fun p => { p with is_active := true }) (fun q => rfl), hf]
  rfl

theorem pbApply_findPlayer {G : Game} {nm : String} (a cb : Rat) {q : Player}
    (hq : findPlayer G.players nm = some q) :
    findPlayer (pbApply G nm a cb).players nm =
      some { q with
               balance := (if q.balance < a then max 1000 (a * 2) else q.balance) - a,
               current_bet := a, has_acted := true } := by
  have hname := findPlayer_name hq
  unfold pbApply
  by_cases hcb : cb < a
  · simp only [if_pos hcb]
    rw [findPlayer_updateFirst (fun p => { p with has_acted := true }) (fun q' => rfl),
        findPlayer_map
          (fun q' =>
            if q'.name ≠ nm ∧ q'.is_active = true ∧ q'.is_all_in = false then
              { q' with has_acted := false }
            else q')
          (fun q' => by dsimp only; split <;> rfl),
        findPlayer_updateFirst
          (fun p =>
            { p with
                balance := (if p.balance < a then max 1000 (a * 2) else p.balance) - a,
                current_bet := a })
          (fun q' => rfl),
        hq]
    simp only [Option.map_some']
    obtain ⟨n, b, c, cb2, ia, ai, ha2⟩ := q
    simp only [Player.mk.injEq] at hname ⊢
    simp [hname]
  · simp only [if_neg hcb]
    rw [findPlayer_updateFirst (fun p => { p with has_acted := true }) (fun q' => rfl),
        findPlayer_updateFirst
          (fun p =>
            { p with
                balance := (if p.balance < a then max 1000 (a * 2) else p.balance) - a,
                current_bet := a })
          (fun q' => rfl),
        hq]
    rfl

theorem pbApply_players_raise (G : Game) (nm : String) (a cb : Rat) (hcb : cb < a) :
    (pbApply G nm a cb).players =
      updateFirst
        ((updateFirst G.players nm
            (fun p =>
              { p with
                  balance := (if p.balance < a then max 1000 (a * 2) else p.balance) - a,
                  current_bet := a })).map
          (fun q =>
            if q.name ≠ nm ∧ q.is_active = true ∧ q.is_all_in = false then
              { q with has_acted := false }
            else q))
        nm (fun p => { p with has_acted := true }) := by
  unfold pbApply
  simp only [if_pos hcb]

theorem triple_getD_other {nm : String} (f1 f3 : Player → Player)
    (r : Player → Player) (hr : ∀ q, (r q).name = q.name) :
    ∀ (ps : List Player) (i : Nat), i < ps.length →
      (ps.getD i dummyPlayer).name ≠ nm →
      (updateFirst ((updateFirst ps nm f1).map r) nm f3).getD i dummyPlayer =
        r (ps.getD i dummyPlayer) := by
  intro ps i hi hnm
  have hlen : i < (updateFirst ps nm f1).length := by
    rw [updateFirst_length]
    exact hi
  have e1 : (updateFirst ps nm f1).getD i dummyPlayer = ps.getD i dummyPlayer :=
    updateFirst_getD_other _ i hnm
  have e3 : ((updateFirst ps nm f1).map r).getD i dummyPlayer =
      r (ps.getD i dummyPlayer) := by
    rw [getD_map_of_lt _ i hlen, e1]
  rw [updateFirst_getD_other _ i (by rw [e3, hr]; exact hnm), e3]

/-! ### Claims about the betting engine -/

/-- C1: for every known player `p` and amount `a > 0`, `place_bet`
succeeds, deducts `a` from the (possibly topped-up) balance, overwrites
`p.current_bet` with exactly `a`, and adds `a` to the pot; an insufficient
balance is first topped up to `max(1000, 2a)` instead of the bet being
rejected. -/
theorem claim_C1 (g : Game) (nm : String) (a : Rat) (p : Player)
    (hf : findPlayer g.players nm = some p) (ha : 0 < a) :
    isOk (place_bet g nm a) = true ∧
    (outGame (place_bet g nm a)).pot = g.pot + a ∧
    findPlayer (outGame (place_bet g nm a)).players nm =
      some { p with is_active := true, has_acted := true, current_bet := a,
                    balance := (if p.balance < a then max 1000 (a * 2) else p.balance) - a } := by
  rw [place_bet_ok_eq hf ha]
  refine ⟨rfl, ?_, ?_⟩
  · simp only [outGame]
    rw [advance_turn_pot, pbApply_pot, pbPre_pot]
  · simp only [outGame]
    rw [advance_turn_players, pbApply_findPlayer a _ (pbPre_findPlayer hf)]

/-- C1 witness: a concrete successful bet of 30 by Alice (balance 100,
previous bet 0) on a pot of 20. -/
theorem claim_C1_witness :
    findPlayer wGame.players "Alice" = some wAlice ∧ (0 : Rat) < 30 ∧
    isOk (place_bet wGame "Alice" 30) = true ∧
    (outGame (place_bet wGame "Alice" 30)).pot = wGame.pot + 30 ∧
    findPlayer (outGame (place_bet wGame "Alice" 30)).players "Alice" =
      some { wAlice with is_active := true, has_acted := true, current_bet := 30,
                         balance := (if wAlice.balance < 30 then max 1000 (30 * 2)
                                     else wAlice.balance) - 30 } :=
  ⟨by decide, by decide, claim_C1 wGame "Alice" 30 wAlice (by decide) (by decide)⟩

/-- C5: a successful bet strictly above the table bet raises the table's
`current_bet` to the amount, clears `has_acted` on every other active
non-all-in player, and sets the acting player's `has_acted`. -/
theorem claim_C5 (g : Game) (nm : String) (a : Rat) (p : Player)
    (hf : findPlayer g.players nm = some p) (ha : 0 < a)
    (hraise : g.current_bet < a) :
    isOk (place_bet g nm a) = true ∧
    (outGame (place_bet g nm a)).current_bet = a ∧
    (∀ i, i < g.players.length →
      (g.players.getD i dummyPlayer).name ≠ nm →
      (g.players.getD i dummyPlayer).is_active = true →
      (g.players.getD i dummyPlayer).is_all_in = false →
      ((outGame (place_bet g nm a)).players.getD i dummyPlayer).has_acted = false) ∧
    (findPlayer (outGame (place_bet g nm a)).players nm).map (fun q => q.has_acted) =
      some true := by
  have hcb : (pbPre g nm).current_bet < a := by
    rw [pbPre_current_bet]
    exact hraise
  rw [place_bet_ok_eq hf ha]
  refine ⟨rfl, ?_, ?_, ?_⟩
  · simp only [outGame]
    rw [advance_turn_current_bet, pbApply_current_bet, if_pos hcb]
  · intro i hi hnm hact hai
    simp only [outGame]
    have e0 : (updateFirst g.players nm (fun p => { p with is_active := true })).getD i
        dummyPlayer = g.players.getD i dummyPlayer :=
      updateFirst_getD_other _ i hnm
    rw [advance_turn_players, pbApply_players_raise _ _ _ _ hcb, pbPre_players,
        triple_getD_other _ _
          (fun q =>
            if q.name ≠ nm ∧ q.is_active = true ∧ q.is_all_in = false then
              { q with has_acted := false }
            else q)
          (fun q => by dsimp only; split <;> rfl)
          (updateFirst g.players nm (fun p => { p with is_active := true })) i
          (by rw [updateFirst_length]; exact hi)
          (by rw [e0]; exact hnm),
        e0]
    rw [if_pos ⟨hnm, hact, hai⟩]
  · simp only [outGame]
    rw [advance_turn_players, pbApply_findPlayer a _ (pbPre_findPlayer hf)]
    rfl

/-- C5 witness: Alice bets 30 over a table bet of 10; Bob's `has_acted`
(set beforehand) is cleared and the table bet becomes 30. -/
theorem claim_C5_witness :
    findPlayer wGame.players "Alice" = some wAlice ∧ (0 : Rat) < 30 ∧
    wGame.current_bet < 30 ∧
    (outGame (place_bet wGame "Alice" 30)).current_bet = 30 ∧
    ((outGame (place_bet wGame "Alice" 30)).players.getD 1 dummyPlayer).has_acted = false ∧
    wBob.has_acted = true :=
  ⟨by decide, by decide, by decide,
   (claim_C5 wGame "Alice" 30 wAlice (by decide) (by decide) (by decide)).2.1,
   (claim_C5 wGame "Alice" 30 wAlice (by decide) (by decide) (by decide)).2.2.1 1
     (by decide) (by decide) (by decide) (by decide),
   by decide⟩

/-- C8: `place_bet` fails exactly on an unknown name or a non-positive
amount — in particular it never checks whose turn it is — and a folded
player placing a bet is silently re-activated: on success the acting
player's `is_active` is true whatever it was before. -/
theorem claim_C8 (g : Game) (nm : String) (a : Rat) :
    (isOk (place_bet g nm a) = true ↔ (findPlayer g.players nm).isSome = true ∧ 0 < a) ∧
    (∀ p, findPlayer g.players nm = some p → 0 < a →
      (findPlayer (outGame (place_bet g nm a)).players nm).map (fun q => q.is_active) =
        some true) := by
  constructor
  · constructor
    · intro hok
      cases hfp : findPlayer g.players nm with
      | none =>
        rw [place_bet_notfound_eq hfp] at hok
        simp [isOk] at hok
      | some p =>
        refine ⟨rfl, ?_⟩
        by_cases ha : a ≤ 0
        · rw [place_bet_err_eq hfp ha] at hok
          simp [isOk] at hok
        · exact not_le.mp ha
    · rintro ⟨hsome, ha⟩
      cases hfp : findPlayer g.players nm with
      | none =>
        rw [hfp] at hsome
        simp at hsome
      | some p =>
        rw [place_bet_ok_eq hfp ha]
        rfl
  · intro p hf ha
    rw [place_bet_ok_eq hf ha]
    simp only [outGame]
    rw [advance_turn_players, pbApply_findPlayer a _ (pbPre_findPlayer hf)]
    rfl

/-- C8 witness: the characterisation at a concrete game, amount and
out-of-turn folded player (`gameC3` holds a folded Alice and the bet is
accepted, re-activating her). -/
theorem claim_C8_witness :
    isOk (place_bet wGame "Alice" 30) = true ∧
    (findPlayer gameC3.players "Alice").map (fun q => q.is_active) = some false ∧
    (findPlayer (outGame (place_bet gameC3 "Alice" 30)).players "Alice").map
      (fun q => q.is_active) = some true :=
  ⟨(claim_C8 wGame "Alice" 30).1.mpr ⟨by decide, by decide⟩,
   by decide,
   (claim_C8 gameC3 "Alice" 30).2 { wAlice with is_active := false, cards := [] }
     (by decide) (by decide)⟩

/-- C3 counterexample: a failing `place_bet` (amount 0, known player) on
an inactive game with a folded player does mutate the game: it activates
the game, re-activates the player and initialises the turn order before
rejecting the bet. -/
theorem claim_C3_counterexample :
    isOk (place_bet gameC3 "Alice" 0) = false ∧
    outGame (place_bet gameC3 "Alice" 0) ≠ gameC3 ∧
    gameC3.is_active = false ∧
    (outGame (place_bet gameC3 "Alice" 0)).is_active = true ∧
    (findPlayer gameC3.players "Alice").map (fun q => q.is_active) = some false ∧
    (findPlayer (outGame (place_bet gameC3 "Alice" 0)).players "Alice").map
      (fun q => q.is_active) = some true ∧
    gameC3.current_turn_order = [] ∧
    (outGame (place_bet gameC3 "Alice" 0)).current_turn_order = ["Alice"] := by
  decide

/-- C3 (amended): a failing betting action is not mutation-free, but its
mutations are limited: any failure first activates the game; a
non-positive-amount failure additionally activates the named player and
initialises an empty turn order; no failure path changes the pot, the
table bet, the deck, the player count, or any player's name, balance,
bet, cards, `has_acted` or `is_all_in`. -/
theorem claim_C3_amended (g : Game) (nm : String) (a : Rat) :
    (findPlayer g.players nm = none →
      place_bet g nm a = .err 404 { g with is_active := true } ∧
      fold g nm = .err 404 { g with is_active := true }) ∧
    (∀ p, findPlayer g.players nm = some p → a ≤ 0 →
      isOk (place_bet g nm a) = false ∧
      (outGame (place_bet g nm a)).pot = g.pot ∧
      (outGame (place_bet g nm a)).current_bet = g.current_bet ∧
      (outGame (place_bet g nm a)).deck = g.deck ∧
      (outGame (place_bet g nm a)).players.length = g.players.length ∧
      (∀ i,
        ((outGame (place_bet g nm a)).players.getD i dummyPlayer).name =
          (g.players.getD i dummyPlayer).name ∧
        ((outGame (place_bet g nm a)).players.getD i dummyPlayer).balance =
          (g.players.getD i dummyPlayer).balance ∧
        ((outGame (place_bet g nm a)).players.getD i dummyPlayer).current_bet =
          (g.players.getD i dummyPlayer).current_bet ∧
        ((outGame (place_bet g nm a)).players.getD i dummyPlayer).cards =
          (g.players.getD i dummyPlayer).cards ∧
        ((outGame (place_bet g nm a)).players.getD i dummyPlayer).has_acted =
          (g.players.getD i dummyPlayer).has_acted ∧
        ((outGame (place_bet g nm a)).players.getD i dummyPlayer).is_all_in =
          (g.players.getD i dummyPlayer).is_all_in)) := by
  constructor
  · intro hf
    refine ⟨place_bet_notfound_eq hf, ?_⟩
    unfold fold
    have hg : findPlayer (gameActivate g).players nm = none := hf
    rw [hg]
    rfl
  · intro p hf ha
    rw [place_bet_err_eq hf ha]
    refine ⟨rfl, ?_, ?_, ?_, ?_, ?_⟩
    · exact pbPre_pot g nm
    · exact pbPre_current_bet g nm
    · exact pbPre_deck g nm
    · simp only [outGame]
      rw [pbPre_players, updateFirst_length]
    · intro i
      simp only [outGame]
      rw [pbPre_players]
      rcases updateFirst_getD (fun p => { p with is_active := true }) nm g.players i with
        h | h <;> rw [h] <;> exact ⟨rfl, rfl, rfl, rfl, rfl, rfl⟩

/-- C3 witness: the amended frame property at a concrete unknown-player
failure and a concrete non-positive-amount failure. -/
theorem claim_C3_witness :
    findPlayer wGame.players "Zed" = none ∧
    findPlayer wGame.players "Alice" = some wAlice ∧ (0 : Rat) ≤ 0 ∧
    (place_bet wGame "Zed" 5 = .err 404 { wGame with is_active := true } ∧
     fold wGame "Zed" = .err 404 { wGame with is_active := true }) ∧
    isOk (place_bet wGame "Alice" 0) = false ∧
    (outGame (place_bet wGame "Alice" 0)).pot = wGame.pot :=
  ⟨by decide, by decide, by decide,
   (claim_C3_amended wGame "Zed" 5).1 (by decide),
   ((claim_C3_amended wGame "Alice" 0).2 wAlice (by decide) (by decide)).1,
   ((claim_C3_amended wGame "Alice" 0).2 wAlice (by decide) (by decide)).2.1⟩

/-! ### Frame lemmas for fold and the turn engine -/

theorem foldMark_pot (g : Game) (nm : String) : (foldMark g nm).pot = g.pot := rfl

theorem foldMark_players (g : Game) (nm : String) :
    (foldMark g nm).players =
      updateFirst g.players nm (fun p => { p with has_acted := true, is_active := false }) :=
  rfl

theorem foldOrderUpdate_pot (g : Game) (nm : String) :
    (foldOrderUpdate g nm).pot = g.pot := by
  unfold foldOrderUpdate
  split
  · rfl
  · split
    · dsimp only
      split <;> rfl
    · rfl

theorem foldOrderUpdate_players (g : Game) (nm : String) :
    (foldOrderUpdate g nm).players = g.players := by
  unfold foldOrderUpdate
  split
  · rfl
  · split
    · dsimp only
      split <;> rfl
    · rfl

theorem advanceLoop_stable (g : Game) (orig : Nat) :
    ∀ (k idx extra : Nat),
      (idx + (k + 1)) % g.current_turn_order.length = orig →
      advanceLoop g orig idx (k + 1 + extra) = advanceLoop g orig idx (k + 1) := by
  intro k
  induction k with
  | zero =>
    intro idx extra h
    rw [Nat.zero_add] at h
    have h2 : 0 + 1 + extra = extra + 1 := by omega
    rw [h2]
    simp only [advanceLoop]
    simp only [if_pos h]
  | succ k ih =>
    intro idx extra h
    revert h ih
    generalize k + 1 = m
    intro ih h
    have h2 : m + 1 + extra = (m + extra) + 1 := by omega
    rw [h2]
    simp only [advanceLoop]
    by_cases hi : (idx + 1) % g.current_turn_order.length = orig
    · simp only [if_pos hi]
    · simp only [if_neg hi]
      have harith :
          ((idx + 1) % g.current_turn_order.length + m) %
              g.current_turn_order.length = orig := by
        rw [Nat.mod_add_mod]
        have h3 : idx + 1 + m = idx + (m + 1) := by omega
        rw [h3]
        exact h
      cases hfp : findPlayer g.players
          (g.current_turn_order.getD ((idx + 1) % g.current_turn_order.length) "") with
      | some p =>
        dsimp only
        by_cases hel : activeNotAllIn p = true
        · simp only [if_pos hel]
        · simp only [if_neg hel]
          exact ih _ extra harith
      | none =>
        dsimp only
        exact ih _ extra harith

theorem advanceLoop_ineligible (g : Game) (orig : Nat)
    (hne : g.current_turn_order ≠ [])
    (hin : ∀ nm ∈ g.current_turn_order, ∀ p, findPlayer g.players nm = some p →
      activeNotAllIn p = false) :
    ∀ (k idx : Nat),
      (idx + (k + 1)) % g.current_turn_order.length = orig →
      advanceLoop g orig idx (k + 1) = orig := by
  intro k
  induction k with
  | zero =>
    intro idx h
    rw [Nat.zero_add] at h
    simp only [advanceLoop]
    simp only [if_pos h]
    exact h
  | succ k ih =>
    intro idx h
    revert h ih
    generalize k + 1 = m
    intro ih h
    simp only [advanceLoop]
    by_cases hi : (idx + 1) % g.current_turn_order.length = orig
    · simp only [if_pos hi]
      exact hi
    · simp only [if_neg hi]
      have hlt : (idx + 1) % g.current_turn_order.length < g.current_turn_order.length :=
        Nat.mod_lt _ (List.length_pos.mpr hne)
      have hmem := getD_mem_str g.current_turn_order _ hlt
      have harith :
          ((idx + 1) % g.current_turn_order.length + m) %
              g.current_turn_order.length = orig := by
        rw [Nat.mod_add_mod]
        have h3 : idx + 1 + m = idx + (m + 1) := by omega
        rw [h3]
        exact h
      cases hfp : findPlayer g.players
          (g.current_turn_order.getD ((idx + 1) % g.current_turn_order.length) "") with
      | some p =>
        dsimp only
        have hp : activeNotAllIn p = false := hin _ hmem p hfp
        rw [if_neg (show ¬ activeNotAllIn p = true by rw [hp]; exact Bool.false_ne_true)]
        exact ih _ harith
      | none =>
        dsimp only
        exact ih _ harith

/-! ### Membership lemmas for the showdown resolver -/

theorem mem_playerScores {s : String × Nat} :
    ∀ {ps : List Player}, s ∈ playerScores ps ↔
      ∃ p, p ∈ ps ∧ 2 ≤ p.cards.length ∧ s = (p.name, handScore p.cards) := by
  intro ps
  induction ps with
  | nil => simp [playerScores]
  | cons q rest ih =>
    by_cases hq : q.cards.length < 2
    · simp only [playerScores, if_pos hq]
      rw [ih]
      constructor
      · rintro ⟨p, hp, h2, hs⟩
        exact ⟨p, List.mem_cons_of_mem _ hp, h2, hs⟩
      · rintro ⟨p, hp, h2, hs⟩
        rcases List.mem_cons.mp hp with h | h
        · subst h
          exact absurd h2 (by omega)
        · exact ⟨p, h, h2, hs⟩
    · simp only [playerScores, if_neg hq]
      constructor
      · intro hmem
        rcases List.mem_cons.mp hmem with h | h
        · exact ⟨q, List.mem_cons_self _ _, by omega, h⟩
        · rcases ih.mp h with ⟨p, hp, h2, hs⟩
          exact ⟨p, List.mem_cons_of_mem _ hp, h2, hs⟩
      · rintro ⟨p, hp, h2, hs⟩
        rcases List.mem_cons.mp hp with h | h
        · subst h
          rw [hs]
          exact List.mem_cons_self _ _
        · exact List.mem_cons_of_mem _ (ih.mpr ⟨p, h, h2, hs⟩)

theorem playerScores_nil_iff :
    ∀ {ps : List Player}, playerScores ps = [] ↔ ∀ p ∈ ps, p.cards.length < 2 := by
  intro ps
  induction ps with
  | nil => simp [playerScores]
  | cons q rest ih =>
    by_cases hq : q.cards.length < 2
    · simp only [playerScores, if_pos hq]
      rw [ih]
      constructor
      · intro h p hp
        rcases List.mem_cons.mp hp with h1 | h1
        · subst h1
          exact hq
        · exact h p h1
      · intro h p hp
        exact h p (List.mem_cons_of_mem _ hp)
    · simp only [playerScores, if_neg hq]
      constructor
      · intro h
        cases h
      · intro h
        exact absurd (h q (List.mem_cons_self _ _)) hq

theorem winnerNames_eq (g : Game) (h2 : 2 ≤ (activePlayers g).length) :
    winnerNames (determine_winner g) = (winnersOf g).map Prod.fst := by
  cases hA : activePlayers g with
  | nil =>
    rw [hA] at h2
    simp at h2
  | cons p rest =>
    cases rest with
    | nil =>
      rw [hA] at h2
      simp at h2
    | cons q rest2 =>
      unfold determine_winner
      rw [hA]
      by_cases hs : scoresOf g = []
      · rw [if_pos hs]
        have hw : winnersOf g = [] := by
          unfold winnersOf
          rw [hs]
          rfl
        rw [hw]
        rfl
      · rw [if_neg hs]
        cases hW : winnersOf g with
        | nil => rfl
        | cons w tail =>
          cases tail with
          | nil => rfl
          | cons w2 t2 => rfl

/-! ### Claims about fold, the turn engine and the showdown resolver -/

/-- C4: when a fold leaves exactly one active player, the hand ends at
once: that player is reported as the winner, their balance grows by the
full pot, the pot becomes 0, and the turn state is exactly the state the
order-maintenance step produced — no further turn advancement happens. -/
theorem claim_C4 (g : Game) (nm : String) (p w : Player)
    (hnd : (g.players.map Player.name).Nodup)
    (hf : findPlayer g.players nm = some p)
    (hone : (foldOrderUpdate (foldMark g nm) nm).players.filter
        (fun q => q.is_active) = [w]) :
    foldWinner (fold g nm) = some w.name ∧
    (foldOutGame (fold g nm)).pot = 0 ∧
    findPlayer (foldOutGame (fold g nm)).players w.name =
      some { w with balance := w.balance + g.pot } ∧
    (foldOutGame (fold g nm)).current_turn_index =
      (foldOrderUpdate (foldMark g nm) nm).current_turn_index ∧
    (foldOutGame (fold g nm)).current_turn_order =
      (foldOrderUpdate (foldMark g nm) nm).current_turn_order := by
  have hg : findPlayer (gameActivate g).players nm = some p := hf
  have hfold : fold g nm =
      .winner w.name
        { (foldOrderUpdate (foldMark g nm) nm) with
            pot := 0,
            players := (foldOrderUpdate (foldMark g nm) nm).players.map (fun q =>
              if q.is_active = true then
                { q with balance := q.balance + (foldOrderUpdate (foldMark g nm) nm).pot }
              else q) } := by
    unfold fold
    rw [hg]
    simp only [hone]
  rw [hfold]
  refine ⟨rfl, rfl, ?_, rfl, rfl⟩
  have hwf : w ∈ (foldOrderUpdate (foldMark g nm) nm).players.filter
      (fun q => q.is_active) := by
    rw [hone]
    exact List.mem_singleton_self w
  have hw_mem : w ∈ (foldOrderUpdate (foldMark g nm) nm).players :=
    (List.mem_filter.mp hwf).1
  have hw_act : w.is_active = true := (List.mem_filter.mp hwf).2
  have hnd3 : ((foldOrderUpdate (foldMark g nm) nm).players.map Player.name).Nodup := by
    rw [foldOrderUpdate_players, foldMark_players,
        map_name_updateFirst (fun p => { p with has_acted := true, is_active := false })
          (fun q => rfl)]
    exact hnd
  have hfind : findPlayer (foldOrderUpdate (foldMark g nm) nm).players w.name = some w :=
    findPlayer_of_nodup_mem hnd3 hw_mem
  have hpot : (foldOrderUpdate (foldMark g nm) nm).pot = g.pot := by
    rw [foldOrderUpdate_pot, foldMark_pot]
  simp only [foldOutGame]
  rw [findPlayer_map
        (fun q =>
          if q.is_active = true then
            { q with balance := q.balance + (foldOrderUpdate (foldMark g nm) nm).pot }
          else q)
        (fun q => by dsimp only; split <;> rfl),
      hfind]
  simp only [Option.map_some']
  rw [if_pos hw_act, hpot]

/-- C4 witness: Alice folds in the two-player game, Bob collects the pot
of 20 and the index stays where the removal step put it. -/
theorem claim_C4_witness :
    (wGame.players.map Player.name).Nodup ∧
    findPlayer wGame.players "Alice" = some wAlice ∧
    (foldOrderUpdate (foldMark wGame "Alice") "Alice").players.filter
      (fun q => q.is_active) = [wBob] ∧
    foldWinner (fold wGame "Alice") = some wBob.name ∧
    (foldOutGame (fold wGame "Alice")).pot = 0 ∧
    findPlayer (foldOutGame (fold wGame "Alice")).players wBob.name =
      some { wBob with balance := wBob.balance + wGame.pot } :=
  ⟨by decide, by decide, by decide,
   (claim_C4 wGame "Alice" wAlice wBob (by decide) (by decide) (by decide)).1,
   (claim_C4 wGame "Alice" wAlice wBob (by decide) (by decide) (by decide)).2.1,
   (claim_C4 wGame "Alice" wAlice wBob (by decide) (by decide) (by decide)).2.2.1⟩

/-- C6: the `advance_turn` scan is fuel-bounded by the turn-order length —
granting the loop any extra fuel beyond `len(current_turn_order)` changes
nothing — and when every name in the turn order resolves to a folded or
all-in player the call leaves `current_turn_index` unchanged (a
deadlock-safe no-op), assuming the index is in range as every reachable
state keeps it. -/
theorem claim_C6 (g : Game) (hidx : g.current_turn_index < g.current_turn_order.length) :
    (∀ extra,
      advanceLoop g g.current_turn_index g.current_turn_index
          (g.current_turn_order.length + extra) =
        advanceLoop g g.current_turn_index g.current_turn_index
          g.current_turn_order.length) ∧
    ((∀ nm ∈ g.current_turn_order, ∀ p, findPlayer g.players nm = some p →
        activeNotAllIn p = false) →
      (advance_turn g).current_turn_index = g.current_turn_index) := by
  have hpos : 0 < g.current_turn_order.length := lt_of_le_of_lt (Nat.zero_le _) hidx
  have hne : g.current_turn_order ≠ [] := List.length_pos.mp hpos
  have hlen : g.current_turn_order.length = (g.current_turn_order.length - 1) + 1 := by
    omega
  have harith : (g.current_turn_index + ((g.current_turn_order.length - 1) + 1)) %
      g.current_turn_order.length = g.current_turn_index := by
    rw [← hlen, Nat.add_mod_right]
    exact Nat.mod_eq_of_lt hidx
  constructor
  · intro extra
    calc advanceLoop g g.current_turn_index g.current_turn_index
          (g.current_turn_order.length + extra)
        = advanceLoop g g.current_turn_index g.current_turn_index
            (((g.current_turn_order.length - 1) + 1) + extra) := by rw [← hlen]
      _ = advanceLoop g g.current_turn_index g.current_turn_index
            ((g.current_turn_order.length - 1) + 1) :=
          advanceLoop_stable g _ _ _ _ harith
      _ = advanceLoop g g.current_turn_index g.current_turn_index
            g.current_turn_order.length := by rw [← hlen]
  · intro hin
    unfold advance_turn
    rw [if_neg hne]
    by_cases hact : g.players.filter activeNotAllIn = []
    · rw [if_pos hact]
    · rw [if_neg hact]
      show advanceLoop g g.current_turn_index g.current_turn_index
          g.current_turn_order.length = g.current_turn_index
      rw [hlen]
      exact advanceLoop_ineligible g _ hne hin _ _ harith

/-- C6 witness: both players of `wGameAllIn` are all-in; the loop with
extra fuel agrees with the bounded loop and the index (1) is unchanged. -/
theorem claim_C6_witness :
    wGameAllIn.current_turn_index < wGameAllIn.current_turn_order.length ∧
    advanceLoop wGameAllIn wGameAllIn.current_turn_index wGameAllIn.current_turn_index
        (wGameAllIn.current_turn_order.length + 3) =
      advanceLoop wGameAllIn wGameAllIn.current_turn_index wGameAllIn.current_turn_index
        wGameAllIn.current_turn_order.length ∧
    (advance_turn wGameAllIn).current_turn_index = wGameAllIn.current_turn_index :=
  ⟨by decide,
   (claim_C6 wGameAllIn (by decide)).1 3,
   (claim_C6 wGameAllIn (by decide)).2 (by
     intro nm hmem p hfp
     fin_cases hmem
     · rw [(by decide : findPlayer wGameAllIn.players "Alice" =
           some { wAlice with is_all_in := true })] at hfp
       injection hfp with h
       rw [← h]
       decide
     · rw [(by decide : findPlayer wGameAllIn.players "Bob" =
           some { wBob with is_all_in := true })] at hfp
       injection hfp with h
       rw [← h]
       decide)⟩

/-- C7: with exactly one active player `determine_winner` reports a
default win without comparing hands; with two or more active players the
reported winners are exactly the active players holding at least two
cards whose highest-card score equals the maximum score (players with
fewer than two cards are excluded from comparison entirely), and an
exact tie of two or more players is reported as a split of all tied
players. -/
theorem claim_C7 (g : Game) :
    (∀ p, activePlayers g = [p] → determine_winner g = .defaultWin p.name) ∧
    (2 ≤ (activePlayers g).length →
      (∀ nm, nm ∈ winnerNames (determine_winner g) ↔
        ∃ p, p ∈ activePlayers g ∧ 2 ≤ p.cards.length ∧ p.name = nm ∧
          handScore p.cards = maxScore (scoresOf g)) ∧
      (2 ≤ (winnersOf g).length → determine_winner g = .split (winnersOf g))) := by
  constructor
  · intro p hA
    unfold determine_winner
    rw [hA]
  · intro h2
    constructor
    · intro nm
      rw [winnerNames_eq g h2]
      constructor
      · intro hmem
        rcases List.mem_map.mp hmem with ⟨s, hsmem, hfst⟩
        rcases List.mem_filter.mp hsmem with ⟨hsscores, hsmax⟩
        rcases mem_playerScores.mp hsscores with ⟨p, hp, hc2, hs⟩
        refine ⟨p, hp, hc2, ?_, ?_⟩
        · rw [← hfst, hs]
        · have hval := of_decide_eq_true hsmax
          rw [hs] at hval
          exact hval
      · rintro ⟨p, hp, hc2, hnm, hmax⟩
        refine List.mem_map.mpr ⟨(p.name, handScore p.cards), ?_, hnm⟩
        exact List.mem_filter.mpr
          ⟨mem_playerScores.mpr ⟨p, hp, hc2, rfl⟩, decide_eq_true hmax⟩
    · intro hlen
      cases hA : activePlayers g with
      | nil =>
        rw [hA] at h2
        simp at h2
      | cons p rest =>
        cases rest with
        | nil =>
          rw [hA] at h2
          simp at h2
        | cons q rest2 =>
          unfold determine_winner
          rw [hA]
          have hs : ¬ scoresOf g = [] := by
            intro h
            have hw : winnersOf g = [] := by
              unfold winnersOf
              rw [h]
              rfl
            rw [hw] at hlen
            simp at hlen
          rw [if_neg hs]
          cases hW : winnersOf g with
          | nil => rfl
          | cons w tail =>
            cases tail with
            | nil =>
              rw [hW] at hlen
              simp at hlen
            | cons w2 t2 => rfl

/-- C7 witness: in the two-player game Alice's ace beats Bob's king and
she is the sole reported winner. -/
theorem claim_C7_witness :
    2 ≤ (activePlayers wGame).length ∧
    ("Alice" ∈ winnerNames (determine_winner wGame) ↔
      ∃ p, p ∈ activePlayers wGame ∧ 2 ≤ p.cards.length ∧ p.name = "Alice" ∧
        handScore p.cards = maxScore (scoresOf wGame)) ∧
    "Alice" ∈ winnerNames (determine_winner wGame) :=
  ⟨by decide,
   ((claim_C7 wGame).2 (by decide)).1 "Alice",
   (((claim_C7 wGame).2 (by decide)).1 "Alice").mpr ⟨wAlice, by decide, by decide,
     by decide, by decide⟩⟩

/-- C10: with two or more active players none of whom holds at least two
cards, `determine_winner` returns no winner at all. -/
theorem claim_C10 (g : Game) (h2 : 2 ≤ (activePlayers g).length)
    (hc : ∀ p ∈ activePlayers g, p.cards.length < 2) :
    determine_winner g = .noWinner := by
  have hs : scoresOf g = [] := by
    unfold scoresOf
    exact playerScores_nil_iff.mpr hc
  cases hA : activePlayers g with
  | nil =>
    rw [hA] at h2
    simp at h2
  | cons p rest =>
    cases rest with
    | nil =>
      rw [hA] at h2
      simp at h2
    | cons q rest2 =>
      unfold determine_winner
      rw [hA, if_pos hs]

/-- C10 witness: two active players holding zero and one card. -/
theorem claim_C10_witness :
    2 ≤ (activePlayers wGame10).length ∧
    (∀ p ∈ activePlayers wGame10, p.cards.length < 2) ∧
    determine_winner wGame10 = .noWinner :=
  ⟨by decide, by decide, claim_C10 wGame10 (by decide) (by decide)⟩

/-- C9: `end_game` deactivates the game, zeroes the pot and side pots,
and clears every player's cards, bet and flags, while keeping the player
list (same length, same names) and every balance untouched — the pot is
discarded, not paid out. -/
theorem claim_C9 (g : Game) :
    (end_game g).is_active = false ∧
    (end_game g).pot = 0 ∧
    (end_game g).side_pots = [] ∧
    (end_game g).players.length = g.players.length ∧
    (∀ i, i < g.players.length →
      (end_game g).players.getD i dummyPlayer =
        { g.players.getD i dummyPlayer with
            cards := [], current_bet := 0, is_all_in := false, has_acted := false }) := by
  refine ⟨rfl, rfl, rfl, ?_, ?_⟩
  · simp only [end_game]
    rw [List.length_map]
  · intro i hi
    simp only [end_game]
    rw [getD_map_of_lt _ i hi]

/-- C9 witness: ending the sample game discards the pot of 20 and keeps
Alice's balance of 100 while clearing her hand. -/
theorem claim_C9_witness :
    (end_game wGame).pot = 0 ∧
    0 < wGame.players.length ∧
    (end_game wGame).players.getD 0 dummyPlayer =
      { wGame.players.getD 0 dummyPlayer with
          cards := [], current_bet := 0, is_all_in := false, has_acted := false } :=
  ⟨(claim_C9 wGame).2.1, by decide,
   (claim_C9 wGame).2.2.2.2 0 (by decide)⟩

/-- C2 counterexample: joining an active game whose deck holds exactly
one card succeeds but deals the new player 0 cards, not 2 — the deck is
not recreated when it holds fewer than 2 cards, only when it is empty. -/
theorem claim_C2_counterexample :
    isOkJoin (join_game gameC2 "Zed") = true ∧
    gameC2.deck.length = 1 ∧
    (findPlayer (joinOutGame (join_game gameC2 "Zed")).players "Zed").map
      (fun p => p.cards.length) = some 0 := by
  decide

/-- C2 (amended): a join with a fresh name always succeeds and appends
the new player, but the deck is lazily recreated only when it is empty
(not whenever it holds fewer than 2 cards): the new player receives the
first 2 cards of the post-recreation deck when it holds at least 2
cards, and 0 cards otherwise (deck with exactly 1 card).  On an inactive
game the state is first replaced by a fresh one whose full deck supplies
the 2 cards. -/
theorem claim_C2_amended (g : Game) (nm : String) :
    (g.is_active = true → findPlayer g.players nm = none →
      isOkJoin (join_game g nm) = true ∧
      findPlayer (joinOutGame (join_game g nm)).players nm =
        some { name := nm, balance := 1000,
               cards := if 2 ≤ (lazyDeck g).length then (lazyDeck g).take 2 else [],
               current_bet := 0, is_active := true, is_all_in := false,
               has_acted := false } ∧
      (joinOutGame (join_game g nm)).deck =
        (if 2 ≤ (lazyDeck g).length then (lazyDeck g).drop 2 else lazyDeck g)) ∧
    (g.is_active = false →
      isOkJoin (join_game g nm) = true ∧
      findPlayer (joinOutGame (join_game g nm)).players nm =
        some { name := nm, balance := 1000, cards := init_deck.take 2,
               current_bet := 0, is_active := true, is_all_in := false,
               has_acted := false } ∧
      (joinOutGame (join_game g nm)).deck = init_deck.drop 2) := by
  constructor
  · intro hact hnone
    unfold join_game lazyDeck
    rw [if_pos hact]
    simp only [hnone, isOkJoin, joinOutGame]
    by_cases hdeck : g.deck = []
    · simp only [if_pos hdeck]
      have h52 : 2 ≤ local_deck.length := by decide
      simp only [if_pos h52]
      refine ⟨trivial, ?_, trivial⟩
      rw [findPlayer_append hnone]
      simp [findPlayer]
    · simp only [if_neg hdeck]
      by_cases hlen : 2 ≤ g.deck.length
      · simp only [if_pos hlen]
        refine ⟨trivial, ?_, trivial⟩
        rw [findPlayer_append hnone]
        simp [findPlayer]
      · simp only [if_neg hlen]
        refine ⟨trivial, ?_, trivial⟩
        rw [findPlayer_append hnone]
        simp [findPlayer]
  · intro hinact
    unfold join_game
    rw [if_neg (by rw [hinact]; exact Bool.false_ne_true)]
    have hnone0 : findPlayer freshActiveGame.players nm = none := rfl
    simp only [hnone0, isOkJoin, joinOutGame]
    have hne : freshActiveGame.deck ≠ [] := by decide
    simp only [if_neg hne]
    have h52 : 2 ≤ freshActiveGame.deck.length := by decide
    simp only [if_pos h52]
    refine ⟨trivial, ?_, ?_⟩
    · rw [findPlayer_append hnone0]
      simp [findPlayer]
      rfl
    · rfl

/-- C2 witness: the amended behaviour at a concrete active game with an
empty deck (recreated, two cards dealt from its front). -/
theorem claim_C2_witness :
    wGame.is_active = true ∧ findPlayer wGame.players "Zed" = none ∧
    isOkJoin (join_game wGame "Zed") = true ∧
    findPlayer (joinOutGame (join_game wGame "Zed")).players "Zed" =
      some { name := "Zed", balance := 1000,
             cards := if 2 ≤ (lazyDeck wGame).length then (lazyDeck wGame).take 2 else [],
             current_bet := 0, is_active := true, is_all_in := false,
             has_acted := false } ∧
    (joinOutGame (join_game wGame "Zed")).deck =
      (if 2 ≤ (lazyDeck wGame).length then (lazyDeck wGame).drop 2 else lazyDeck wGame) :=
  ⟨rfl, by decide, (claim_C2_amended wGame "Zed").1 rfl (by decide)⟩

end PokerApi
